import Mathlib

/-!
# gapfeeder/send_gaps.go

A shallow embedding of the gap-file mailer: configuration resolution
(parseArgs), artifact location (readGapFiles), compression (compress), the
summary extractor (getRecentGapMessages) and the dispatcher (createMailArgs,
sendMailWithAttachment), followed by theorems about them.

Modelling conventions.

* A Go string is a byte sequence.  It is represented by a Lean String whose
  characters stand for the single bytes, so every ASCII text is represented
  exactly; byte streams read from files are lists of such characters.
* The package-level variables of the program are the fields of State; a
  function that assigns to them returns the updated State.
* panic and os.Exit end the run; they are the two constructors of Stop and a
  stage that may end the run returns Except Stop.
* The operating system and the Go library are the fields of Env: directory
  listing, path matching and joining, file contents, the compressor, the sort
  routine and the external transport.  Text printed to standard output and
  standard error is not modelled.
-/

namespace GapFeeder

/-! ## Constants and data model -/

/-- Constant maxCompressedSize: only send email attachments smaller than this size. -/
def maxCompressedSize : Int := 10 * 1024 * 1024

/-- Constant mailxCmd: the name of the transport executable. -/
def mailxCmd : String := "echoargs"

/-- The two ways a run ends early: a Go panic, or os.Exit with a code. -/
inductive Stop where
  | panic (msg : String)
  | exit (code : Int)
deriving DecidableEq

/-- Equality of results is decidable, so that concrete runs can be evaluated. -/
instance decEqExcept {ε α : Type} [DecidableEq ε] [DecidableEq α] : DecidableEq (Except ε α) :=
  fun a b =>
    match a, b with
    | .ok x, .ok y =>
      if h : x = y then isTrue (by rw [h]) else isFalse (fun h2 => h (by cases h2; rfl))
    | .error x, .error y =>
      if h : x = y then isTrue (by rw [h]) else isFalse (fun h2 => h (by cases h2; rfl))
    | .ok _, .error _ => isFalse (fun h2 => by cases h2)
    | .error _, .ok _ => isFalse (fun h2 => by cases h2)

/-- An os.File handle; only what Name() returns is observed. -/
structure File where
  name : String
deriving DecidableEq

/-- An os.FileInfo of a directory entry: Name() and ModTime() (an instant, in
nanoseconds). -/
structure FileInfo where
  name : String
  modTime : Int
deriving DecidableEq

/-- The package-level variables of send_gaps.go (lines 24-36).  The two int64
sizes are integers: the program only assigns and compares them. -/
structure State where
  debug : Bool
  recipients : String
  gapDir : String
  hostname : String
  gapCountName : String
  gapFileGlob : String
  subjectLine : String
  fqnGapFile : String
  compressedSize : Int
  maxTransferSize : Int
  fqnCompressedFile : Option File
deriving DecidableEq

/-- The command line after flag.Parse: a field is none when the flag was not
given, and then the default registered with the flag package applies. -/
structure Flags where
  recipients : Option String
  gapDirectory : Option String
  hostname : Option String
  gapCountName : Option String
  gapFileGlob : Option String
  subject : Option String
  debugMode : Option Bool
  maxXferAllowed : Option Int

/-- What cmd.Run() returns: nil, an exec.ExitError carrying the exit code of
the process, or any other error (the executable was not found, ...). -/
inductive CmdResult where
  | ok
  | exitError (code : Int)
  | failed (msg : String)
deriving DecidableEq

/-- The effects of a run that the specification talks about. -/
inductive Event where
  | tempCreated (name : String)
  | tempRemoved (name : String)
  | transport (cmd : String) (args : List String) (stdin : String)
deriving DecidableEq

/-- The contract of sort.Sort for a slice of directory entries: the result is a
rearrangement of the input and, when Less is a strict weak ordering, no later
element is Less than an earlier one.  The order of equal elements is left
open (sort.Sort is not stable). -/
structure Sorter where
  sort : (FileInfo → FileInfo → Bool) → List FileInfo → List FileInfo
  perm : ∀ less l, List.Perm (sort less l) l
  ordered : ∀ less l,
    (∀ a b, less a b = true → less b a = false) →
    (∀ a b c, less b a = false → less c b = false → less c a = false) →
    List.Pairwise (fun a b => less b a = false) (sort less l)

/-- The environment of a run. -/
structure Env where
  /-- Result of os.Hostname(). -/
  osHostname : Except String String
  /-- Result of os.Open(dir) followed by Readdir(-1). -/
  readdir : String → Except String (List FileInfo)
  /-- Result of filepath.Match(pattern, name). -/
  pathMatch : String → String → Except String Bool
  /-- Result of filepath.Join(dir, name). -/
  pathJoin : String → String → String
  /-- Result of sort.Sort. -/
  sorter : Sorter
  /-- Result of ioutil.TempFile("", "gap"): the name of the file created. -/
  tempFile : Except String String
  /-- Result of os.Open(path): the bytes of the file. -/
  openFile : String → Except String (List Char)
  /-- Result of compressing the bytes into the temporary file (NewWriterLevel,
  io.Copy, Close, Sync, Stat): the size of the temporary file. -/
  gzipTo : List Char → Except String Int
  /-- Result of running the command with the arguments and standard input. -/
  runCmd : String → List String → String → CmdResult

/-! ## strings.Index and strings.Split -/

/-- Search loop of strings.Index: the position of the first occurrence of
substr in the text at or after position i, or -1. -/
def indexFrom (substr : List Char) : List Char → Nat → Int
  | [], i => if substr = [] then (i : Int) else -1
  | c :: cs, i =>
    if substr.isPrefixOf (c :: cs) then (i : Int) else indexFrom substr cs (i + 1)

/-- Library function strings.Index(s, substr). -/
def stringsIndex (s substr : String) : Int :=
  indexFrom substr.data s.data 0

/-- Loop of strings.genSplit for a non-empty separator: cut at each
occurrence of sep. -/
def splitLoop (sep : List Char) : Nat → List Char → List (List Char)
  | 0, s => [s]
  | fuel + 1, s =>
    let m := indexFrom sep s 0
    if m < 0 then [s]
    else s.take m.toNat :: splitLoop sep fuel (s.drop (m.toNat + sep.length))

/-- Library function strings.Split(s, sep): with an empty separator the string
is split into its characters. -/
def stringsSplit (s sep : String) : List String :=
  if sep = "" then s.data.map String.singleton
  else (splitLoop sep.data (s.length + 1) s.data).map String.mk

/-! ## parseArgs -/

/-- Function parseArgs (lines 55-94): the flags with their registered
defaults, then the computed defaults and the clamp of maxTransferSize. -/
def parseArgs (fl : Flags) (osHostname : Except String String) : Except Stop State := do
  let recipients := fl.recipients.getD "evan.polster@noaa.gov"
  let gapDir := fl.gapDirectory.getD "/usr/local/ldm/logs"
  let hostname := fl.hostname.getD ""
  let gapCountName := fl.gapCountName.getD ""
  let gapFileGlob := fl.gapFileGlob.getD ""
  let subjectLine := fl.subject.getD ""
  let debug := fl.debugMode.getD false
  let maxTransferSize := fl.maxXferAllowed.getD maxCompressedSize
  -- computed defaults instead of static ones
  let hostname ←
    if hostname = "" then
      match osHostname with
      | .error err => Except.error (Stop.panic err)
      | .ok h =>
        if stringsIndex h "." > 0 then
          match (stringsSplit h ".")[0]? with
          | some first => Except.ok first
          | none => Except.error (Stop.panic "index out of range")
        else Except.ok h
    else Except.ok hostname
  let gapCountName := if gapCountName = "" then hostname ++ "_gapcount" else gapCountName
  let gapFileGlob := if gapFileGlob = "" then hostname ++ "_*.gap" else gapFileGlob
  let subjectLine :=
    if subjectLine = "" then "Gap-in-sequence messages from " ++ hostname else subjectLine
  let maxTransferSize :=
    if maxTransferSize > maxCompressedSize then maxCompressedSize else maxTransferSize
  return {
    debug := debug
    recipients := recipients
    gapDir := gapDir
    hostname := hostname
    gapCountName := gapCountName
    gapFileGlob := gapFileGlob
    subjectLine := subjectLine
    fqnGapFile := ""
    compressedSize := 0
    maxTransferSize := maxTransferSize
    fqnCompressedFile := none }

/-! ## readGapFiles -/

/-- Method byModificationTime.Less: the first entry was modified before the second. -/
def byModificationTime.Less (a b : FileInfo) : Bool :=
  decide (a.modTime < b.modTime)

/-- Adapter sort.Reverse: Less with its arguments exchanged. -/
def sortReverse (less : FileInfo → FileInfo → Bool) (a b : FileInfo) : Bool :=
  less b a

/-- Loop of readGapFiles (lines 112-119): filter file names by glob; a
matching error panics. -/
def matchLoop (env : Env) (glob : String) : List FileInfo → List FileInfo → Except Stop (List FileInfo)
  | [], matched => .ok matched
  | f :: fs, matched =>
    match env.pathMatch glob f.name with
    | .error err => .error (.panic err)
    | .ok true => matchLoop env glob fs (matched ++ [f])
    | .ok false => matchLoop env glob fs matched

/-- Function readGapFiles (lines 96-129): assigns the path of the most
recently modified matching entry to fqnGapFile, or exits with status 1 when
nothing matches. -/
def readGapFiles (env : Env) (st : State) : Except Stop State :=
  match env.readdir st.gapDir with
  | .error err => .error (.panic err)
  | .ok files =>
    match matchLoop env st.gapFileGlob files [] with
    | .error stop => .error stop
    | .ok matched =>
      if matched.length = 0 then .error (.exit 1)
      else
        let sorted := env.sorter.sort (sortReverse byModificationTime.Less) matched
        match sorted[0]? with
        | none => .error (.panic "index out of range")
        | some lastModifiedGapFile =>
          .ok { st with fqnGapFile := env.pathJoin st.gapDir lastModifiedGapFile.name }

/-! ## compress -/

/-- Function compress (lines 130-172): the temporary file and the state with
compressedSize set.  The deferred os.Remove runs when the function is left,
by return or by panic, once the temporary file exists. -/
def compress (env : Env) (st : State) : Except Stop (File × State) × List Event :=
  match env.tempFile with
  | .error err => (.error (.panic err), [])
  | .ok tmpfile =>
    let result : Except Stop (File × State) :=
      match env.openFile st.fqnGapFile with
      | .error err => .error (.panic err)
      | .ok uncompressed =>
        match env.gzipTo uncompressed with
        | .error err => .error (.panic err)
        | .ok size => .ok (File.mk tmpfile, { st with compressedSize := size })
    (result, [Event.tempCreated tmpfile, Event.tempRemoved tmpfile])

/-! ## getRecentGapMessages -/

/-- What one call of bufio.Reader.ReadString returns, with the bytes left in
the reader. -/
structure ReadResult where
  line : String
  err : Option String
  rest : List Char
deriving DecidableEq

/-- Library method bufio.Reader.ReadString(delim): the data up to and including
the first delim; when the input ends before a delim, the data read so far and
the error io.EOF.  The reader is the finite content of the file; other read
errors are not modelled. -/
def readString (delim : Char) : List Char → ReadResult
  | [] => { line := "", err := some "EOF", rest := [] }
  | c :: cs =>
    if c = delim then { line := String.mk [c], err := none, rest := cs }
    else
      let r := readString delim cs
      { line := String.mk (c :: r.line.data), err := r.err, rest := r.rest }

/-- Assignment of line 193:
lastLines[0], lastLines[1], lastLines[2] = lastLines[2], lastLines[1], line.
The right-hand sides are evaluated first. -/
def rotate (lastLines : List String) (line : String) : List String :=
  let v0 := lastLines.getD 2 ""
  let v1 := lastLines.getD 1 ""
  ((lastLines.set 0 v0).set 1 v1).set 2 line

/-- Loop of getRecentGapMessages (lines 187-194).  Every successful read
consumes at least one byte, so a fuel above the number of bytes left is never
used up. -/
def readLoop : Nat → List Char → List String → List String
  | 0, _, lastLines => lastLines
  | fuel + 1, reader, lastLines =>
    let r := readString '\n' reader
    match r.err with
    | some _ => lastLines
    | none => readLoop fuel r.rest (rotate lastLines r.line)

/-- Function getRecentGapMessages (lines 174-197); the argument is the result
of opening the counter file. -/
def getRecentGapMessages (gapCountFile : Except String (List Char)) : Except Stop (List String) :=
  match gapCountFile with
  | .error err => .error (.panic err)
  | .ok reader => .ok (readLoop (reader.length + 1) reader (List.replicate 3 ""))

/-! ## createMailArgs and sendMailWithAttachment -/

/-- Function createMailArgs (lines 199-218): the argument list, and the state
with the subject line it may have extended.  Name() on a nil file panics. -/
def createMailArgs (st : State) : Except Stop (List String × State) :=
  let mailArgs : List String := ["-s"]
  if st.compressedSize > maxCompressedSize then
    let st1 := { st with subjectLine := st.subjectLine ++ " without gap file attachment" }
    let mailArgs := mailArgs ++ [st1.subjectLine]
    .ok (mailArgs ++ [st1.recipients], st1)
  else
    match st.fqnCompressedFile with
    | none => .error (.panic "nil pointer dereference")
    | some f =>
      let mailArgs := mailArgs ++ [st.subjectLine, "-a", f.name]
      .ok (mailArgs ++ [st.recipients], st)

/-- Expression lastLines[0] + lastLines[1] of line 228; none when an index is
out of range. -/
def stdinPayload (lastLines : List String) : Option String :=
  match lastLines[0]?, lastLines[1]? with
  | some a, some b => some (a ++ b)
  | _, _ => none

/-- Function sendMailWithAttachment (lines 220-240). -/
def sendMailWithAttachment (env : Env) (lastLines mailArgs : List String) :
    Except Stop Unit × List Event :=
  match stdinPayload lastLines with
  | none => (.error (.panic "index out of range"), [])
  | some stdin =>
    let invocation := [Event.transport mailxCmd mailArgs stdin]
    match env.runCmd mailxCmd mailArgs stdin with
    | .ok => (.ok (), invocation)
    | .exitError code => (.error (.exit code), invocation)
    | .failed err => (.error (.panic err), invocation)

/-! ## main -/

/-- Function main (lines 44-53): the stages in sequence, with the events of
the run. -/
def main (env : Env) (fl : Flags) : Except Stop Unit × List Event :=
  match parseArgs fl env.osHostname with
  | .error stop => (.error stop, [])
  | .ok st0 =>
    match readGapFiles env st0 with
    | .error stop => (.error stop, [])
    | .ok st1 =>
      match compress env st1 with
      | (.error stop, events) => (.error stop, events)
      | (.ok (tmpfile, st2), events) =>
        let st3 := { st2 with fqnCompressedFile := some tmpfile }
        match getRecentGapMessages (env.openFile (env.pathJoin st3.gapDir st3.gapCountName)) with
        | .error stop => (.error stop, events)
        | .ok lastLines =>
          match createMailArgs st3 with
          | .error stop => (.error stop, events)
          | .ok (mailArgs, _) =>
            let sent := sendMailWithAttachment env lastLines mailArgs
            (sent.1, events ++ sent.2)

/-- Exit status of the process: 0 after a normal return, the low byte of the
code given to os.Exit, 2 after a panic. -/
def exitStatus : Except Stop Unit → Int
  | .ok _ => 0
  | .error (.exit code) => code % 256
  | .error (.panic _) => 2

/-! ## Vocabulary of the statements -/

/-- A newline-terminated line: it ends with the line terminator and has no other one. -/
def IsLine (l : String) : Prop :=
  l.data.getLast? = some '\n' ∧ '\n' ∉ l.data.dropLast

instance decIsLine (l : String) : Decidable (IsLine l) :=
  inferInstanceAs (Decidable (l.data.getLast? = some '\n' ∧ '\n' ∉ l.data.dropLast))

/-- The bytes of a file made of the given lines, in order. -/
def concatLines : List String → List Char
  | [] => []
  | l :: ls => l.data ++ concatLines ls

/-- The part of a byte sequence up to and including its last newline: a byte
is kept exactly when a newline occurs at or after it. -/
def upToLastNewline : List Char → List Char
  | [] => []
  | c :: cs => if '\n' ∈ c :: cs then c :: upToLastNewline cs else []

/-- The entry name matches the glob: filepath.Match reports a match and no error. -/
def isMatch (env : Env) (glob : String) (f : FileInfo) : Bool :=
  decide (env.pathMatch glob f.name = .ok true)

/-! ## A concrete environment for running the model -/

/-- A matcher for patterns made of literal characters and the star: on these
patterns, and names without a path separator, it agrees with filepath.Match. -/
def starGlob : List Char → List Char → Bool
  | [], name => name.isEmpty
  | p :: ps, name =>
    if p = '*' then name.tails.any (fun t => starGlob ps t)
    else
      match name with
      | [] => false
      | c :: cs => p = c && starGlob ps cs

/-- A Sorter: stable insertion sort, the routine sort.Sort runs on short slices. -/
def insertionSorter : Sorter where
  sort := fun less l => List.insertionSort (fun a b => less b a = false) l
  perm := fun less l => List.perm_insertionSort (fun a b => less b a = false) l
  ordered := by
    intro less l hasym htrans
    haveI : IsTotal FileInfo (fun a b => less b a = false) :=
      ⟨fun a b => by
        cases h : less b a
        · exact Or.inl rfl
        · exact Or.inr (hasym b a h)⟩
    haveI : IsTrans FileInfo (fun a b => less b a = false) :=
      ⟨fun a b c hab hbc => htrans a b c hab hbc⟩
    exact List.sorted_insertionSort (fun a b => less b a = false) l

/-- The directory of the end-to-end scenario: two gap files, host_b.gap the
newer one, and the counter file. -/
def scenarioFiles : List FileInfo :=
  [FileInfo.mk "host_a.gap" 100, FileInfo.mk "host_gapcount" 300, FileInfo.mk "host_b.gap" 200]

/-- An environment with the scenario directory, a four-line counter file, and
a transport that ends with the given result. -/
def scenarioEnv (files : List FileInfo) (transport : CmdResult) : Env where
  osHostname := .ok "host.example.org"
  readdir := fun _ => .ok files
  pathMatch := fun pattern name => .ok (starGlob pattern.data name.data)
  pathJoin := fun dir name => dir ++ "/" ++ name
  sorter := insertionSorter
  tempFile := .ok "/tmp/gap123"
  openFile := fun path =>
    if path = "/usr/local/ldm/logs/host_gapcount" then .ok "c1\nc2\nc3\nc4\n".data
    else .ok "gap data".data
  gzipTo := fun _ => .ok 50
  runCmd := fun _ _ _ => transport

/-- The command line without any flag. -/
def noFlags : Flags :=
  Flags.mk none none none none none none none none

/-- A program state after parseArgs and compress, for running the dispatcher. -/
def sampleState (compressedSize maxTransferSize : Int) : State where
  debug := false
  recipients := "ops@example.org"
  gapDir := "/usr/local/ldm/logs"
  hostname := "host"
  gapCountName := "host_gapcount"
  gapFileGlob := "host_*.gap"
  subjectLine := "Gap-in-sequence messages from host"
  fqnGapFile := "/usr/local/ldm/logs/host_b.gap"
  compressedSize := compressedSize
  maxTransferSize := maxTransferSize
  fqnCompressedFile := some (File.mk "/tmp/gap123")

/-- The state parseArgs resolves on host.example.org without any flag. -/
def scenarioState : State where
  debug := false
  recipients := "evan.polster@noaa.gov"
  gapDir := "/usr/local/ldm/logs"
  hostname := "host"
  gapCountName := "host_gapcount"
  gapFileGlob := "host_*.gap"
  subjectLine := "Gap-in-sequence messages from host"
  fqnGapFile := ""
  compressedSize := 0
  maxTransferSize := 10485760
  fqnCompressedFile := none

/-! ## parseArgs -/

theorem indexFrom_dot (s : List Char) (i : Nat) :
    indexFrom ['.'] s i =
      if '.' ∈ s then ((i + (s.takeWhile (fun c => c ≠ '.')).length : Nat) : Int) else -1 := by
  induction s generalizing i with
  | nil => simp [indexFrom]
  | cons c cs ih =>
    by_cases hc : c = '.'
    · simp [indexFrom, hc, List.isPrefixOf]
    · have hc2 : ¬ '.' = c := fun h => hc h.symm
      simp only [indexFrom, List.isPrefixOf, beq_iff_eq, hc2, Bool.and_true, List.mem_cons,
        false_or, ih]
      simp only [hc, List.takeWhile, ne_eq, not_false_eq_true, decide_True, List.length_cons]
      by_cases hm : '.' ∈ cs
      · simp only [hm, if_true]; push_cast; omega
      · simp only [hm, if_false]

/-- Taking as many characters as takeWhile keeps gives what takeWhile keeps. -/
theorem take_takeWhile_length (p : Char → Bool) (s : List Char) :
    s.take (s.takeWhile p).length = s.takeWhile p := by
  induction s with
  | nil => rfl
  | cons c cs ih =>
    by_cases h : p c
    · simp [List.takeWhile, h, ih]
    · simp [List.takeWhile, h]

/-- The guard of line 75 holds exactly when the name has a dot and does not begin with one. -/
theorem stringsIndex_dot_pos (h : String) :
    stringsIndex h "." > 0 ↔ '.' ∈ h.data ∧ h.data.head? ≠ some '.' := by
  have hdot : (".": String).data = ['.'] := rfl
  unfold stringsIndex
  rw [hdot, indexFrom_dot]
  by_cases hm : '.' ∈ h.data
  · simp only [hm, if_true, true_and, Nat.zero_add]
    cases hd : h.data with
    | nil => rw [hd] at hm; simp at hm
    | cons c cs =>
      by_cases hc : c = '.'
      · simp [hc, List.takeWhile]
      · simp [hc, List.takeWhile]
  · simp [hm]

/-- The first piece of a name split at its dots is its part before the first dot. -/
theorem stringsSplit_dot_first (h : String) (hm : '.' ∈ h.data) :
    (stringsSplit h ".")[0]? = some (String.mk (h.data.takeWhile (fun c => c ≠ '.'))) := by
  have hdot : (".": String).data = ['.'] := rfl
  have hne : ¬ ("." : String) = "" := by decide
  unfold stringsSplit
  rw [if_neg hne, hdot]
  have hnn : ¬ (((h.data.takeWhile (fun c => c ≠ '.')).length : Nat) : Int) < 0 := by omega
  simp only [splitLoop, indexFrom_dot, hm, if_true, Nat.zero_add, if_neg hnn, Int.toNat_ofNat,
    take_takeWhile_length, List.map_cons]
  simp

/-- The part before the first dot has no dot. -/
theorem takeWhile_no_dot (s : List Char) : '.' ∉ s.takeWhile (fun c => c ≠ '.') := by
  intro h
  have := List.mem_takeWhile_imp h
  simp at this

/-- A name without a dot is its own part before the first dot. -/
theorem takeWhile_eq_self (s : List Char) (h : '.' ∉ s) :
    s.takeWhile (fun c => c ≠ '.') = s := by
  rw [List.takeWhile_eq_self_iff]
  intro c hc
  simp only [ne_eq, decide_not, Bool.not_eq_true', decide_eq_false_iff_not]
  intro h2
  exact h (h2 ▸ hc)

/-- The host name that parseArgs resolves from the name the system reports. -/
theorem parseArgs_ok (fl : Flags) (os : Except String String) (hn : String)
    (hres : (fl.hostname.getD "" ≠ "" ∧ hn = fl.hostname.getD "") ∨
      (fl.hostname.getD "" = "" ∧ ∃ h, os = .ok h ∧
        hn = if '.' ∈ h.data ∧ h.data.head? ≠ some '.'
             then String.mk (h.data.takeWhile (fun c => c ≠ '.')) else h)) :
    parseArgs fl os = .ok {
      debug := fl.debugMode.getD false
      recipients := fl.recipients.getD "evan.polster@noaa.gov"
      gapDir := fl.gapDirectory.getD "/usr/local/ldm/logs"
      hostname := hn
      gapCountName :=
        if fl.gapCountName.getD "" = "" then hn ++ "_gapcount" else fl.gapCountName.getD ""
      gapFileGlob :=
        if fl.gapFileGlob.getD "" = "" then hn ++ "_*.gap" else fl.gapFileGlob.getD ""
      subjectLine :=
        if fl.subject.getD "" = "" then "Gap-in-sequence messages from " ++ hn
        else fl.subject.getD ""
      fqnGapFile := ""
      compressedSize := 0
      maxTransferSize :=
        if fl.maxXferAllowed.getD maxCompressedSize > maxCompressedSize then maxCompressedSize
        else fl.maxXferAllowed.getD maxCompressedSize
      fqnCompressedFile := none } := by
  rcases hres with ⟨h1, h2⟩ | ⟨h1, h, h2, h3⟩
  · subst h2
    simp only [parseArgs, if_neg h1]
    rfl
  · subst h2
    by_cases hc : '.' ∈ h.data ∧ h.data.head? ≠ some '.'
    · rw [if_pos hc] at h3
      subst h3
      have hp := (stringsIndex_dot_pos h).mpr hc
      simp only [parseArgs, if_pos h1, if_pos hp, stringsSplit_dot_first h hc.1]
      rfl
    · rw [if_neg hc] at h3
      subst h3
      have hp : ¬ stringsIndex hn "." > 0 := fun hp => hc ((stringsIndex_dot_pos hn).mp hp)
      simp only [parseArgs, if_pos h1, if_neg hp]
      rfl

/-- C6: parseArgs clamps the maximum transfer size to the hard ceiling.  For
every value v given to --max-xfer-allowed, whenever the host name can be
resolved parseArgs returns a state whose maxTransferSize is min(v, 10485760);
so it never exceeds 10485760 and equals v whenever v is at most 10485760. -/
theorem parseArgs_clamps_maxTransferSize (fl : Flags) (os : Except String String) (v : Int)
    (hv : fl.maxXferAllowed = some v)
    (hres : fl.hostname.getD "" ≠ "" ∨ ∃ h, os = .ok h) :
    ∃ st, parseArgs fl os = .ok st ∧ st.maxTransferSize = min v 10485760 ∧
      st.maxTransferSize ≤ 10485760 ∧ (v ≤ 10485760 → st.maxTransferSize = v) := by
  have hc : maxCompressedSize = 10485760 := by decide
  have hclamp : ∀ m : Int, m = (if v > 10485760 then 10485760 else v) →
      m = min v 10485760 ∧ m ≤ 10485760 ∧ (v ≤ 10485760 → m = v) := by
    intro m hm
    by_cases h : v > 10485760
    · rw [if_pos h] at hm
      refine ⟨by rw [hm, min_eq_right (le_of_lt h)], by rw [hm], fun h2 => ?_⟩
      omega
    · rw [if_neg h] at hm
      have h2 : v ≤ 10485760 := not_lt.mp h
      exact ⟨by rw [hm, min_eq_left h2], by rw [hm]; exact h2, fun _ => hm⟩
  by_cases hh : fl.hostname.getD "" = ""
  · rcases hres with hne | ⟨h, hos⟩
    · exact absurd hh hne
    · refine ⟨_, parseArgs_ok fl os _ (Or.inr ⟨hh, h, hos, rfl⟩), ?_⟩
      apply hclamp
      simp [hv, hc]
  · refine ⟨_, parseArgs_ok fl os _ (Or.inl ⟨hh, rfl⟩), ?_⟩
    apply hclamp
    simp [hv, hc]

/-- Witness for C6: a request of 99999999 bytes is resolved to the ceiling. -/
theorem parseArgs_clamps_maxTransferSize_witness :
    ∃ st, parseArgs (Flags.mk none none none none none none none (some 99999999))
        (.ok "host.example.org") = .ok st ∧
      st.maxTransferSize = min 99999999 10485760 ∧
      st.maxTransferSize ≤ 10485760 ∧ ((99999999 : Int) ≤ 10485760 → st.maxTransferSize = 99999999) :=
  parseArgs_clamps_maxTransferSize (Flags.mk none none none none none none none (some 99999999))
    (.ok "host.example.org") 99999999 rfl (Or.inr ⟨"host.example.org", rfl⟩)

/-- C8, counterexample: for the reported host name .local the resolved host
name is .local itself; it contains a dot, and the portion before its first
dot is empty. -/
theorem parseArgs_hostname_leading_dot :
    (parseArgs noFlags (.ok ".local")).map (fun st => st.hostname) = .ok ".local" ∧
    '.' ∈ (".local" : String).data ∧
    (".local" : String).data.takeWhile (fun c => c ≠ '.') = [] := by
  decide

/-- C8, amended: when no --hostname is given and the reported host name h does
not begin with a dot, the resolved host name is the portion of h before its
first dot, which is h itself when h has no dot, and it contains no dot; when
h begins with a dot, the resolved host name is h unchanged. -/
theorem parseArgs_default_hostname (fl : Flags) (h : String)
    (hfl : fl.hostname.getD "" = "") :
    ∃ st, parseArgs fl (.ok h) = .ok st ∧
      (h.data.head? ≠ some '.' →
        st.hostname.data = h.data.takeWhile (fun c => c ≠ '.') ∧
        '.' ∉ st.hostname.data ∧ ('.' ∉ h.data → st.hostname = h)) ∧
      (h.data.head? = some '.' → st.hostname = h) := by
  refine ⟨_, parseArgs_ok fl (.ok h) _ (Or.inr ⟨hfl, h, rfl, rfl⟩), ?_, ?_⟩
  · intro hhead
    by_cases hm : '.' ∈ h.data
    · have hcond : '.' ∈ h.data ∧ h.data.head? ≠ some '.' := ⟨hm, hhead⟩
      rw [if_pos hcond]
      exact ⟨rfl, takeWhile_no_dot _, fun hn => absurd hm hn⟩
    · have hcond : ¬ ('.' ∈ h.data ∧ h.data.head? ≠ some '.') := fun hc => hm hc.1
      rw [if_neg hcond]
      exact ⟨(takeWhile_eq_self _ hm).symm, hm, fun _ => rfl⟩
  · intro hhead
    have hcond : ¬ ('.' ∈ h.data ∧ h.data.head? ≠ some '.') := fun hc => hc.2 hhead
    rw [if_neg hcond]

/-- Witness for C8: host.example.org resolves to its part before the first dot. -/
theorem parseArgs_default_hostname_witness :
    ∃ st, parseArgs noFlags (.ok "host.example.org") = .ok st ∧
      (("host.example.org" : String).data.head? ≠ some '.' →
        st.hostname.data = ("host.example.org" : String).data.takeWhile (fun c => c ≠ '.') ∧
        '.' ∉ st.hostname.data ∧
        ('.' ∉ ("host.example.org" : String).data → st.hostname = "host.example.org")) ∧
      (("host.example.org" : String).data.head? = some '.' → st.hostname = "host.example.org") :=
  parseArgs_default_hostname noFlags "host.example.org" rfl


/-! ## readGapFiles and main -/

theorem matchLoop_ok (env : Env) (glob : String) (files acc : List FileInfo)
    (hwf : ∀ f ∈ files, ∃ b, env.pathMatch glob f.name = .ok b) :
    matchLoop env glob files acc = .ok (acc ++ files.filter (isMatch env glob)) := by
  induction files generalizing acc with
  | nil => simp [matchLoop]
  | cons f fs ih =>
    have hfs : ∀ g ∈ fs, ∃ b, env.pathMatch glob g.name = .ok b :=
      fun g hg => hwf g (by simp [hg])
    obtain ⟨b, hb⟩ := hwf f (by simp)
    cases b with
    | true =>
      have hf : isMatch env glob f = true := by simp [isMatch, hb]
      simp only [matchLoop, hb, ih _ hfs, List.filter_cons, hf, if_true, List.append_assoc,
        List.singleton_append]
    | false =>
      have hf : isMatch env glob f = false := by simp [isMatch, hb]
      simp [matchLoop, hb, ih _ hfs, List.filter_cons, hf]

/-- Without a matching entry readGapFiles exits with status 1. -/
theorem readGapFiles_none (env : Env) (st : State) (files : List FileInfo)
    (hdir : env.readdir st.gapDir = .ok files)
    (hwf : ∀ f ∈ files, ∃ b, env.pathMatch st.gapFileGlob f.name = .ok b)
    (hno : ∀ f ∈ files, env.pathMatch st.gapFileGlob f.name ≠ .ok true) :
    readGapFiles env st = .error (.exit 1) := by
  have hfil : files.filter (isMatch env st.gapFileGlob) = [] := by
    rw [List.filter_eq_nil_iff]
    intro f hf
    simp [isMatch, hno f hf]
  simp [readGapFiles, hdir, matchLoop_ok env _ files [] hwf, hfil]

/-- With a matching entry readGapFiles returns the path of a matching entry that no matching entry is newer than. -/
theorem readGapFiles_some (env : Env) (st : State) (files : List FileInfo)
    (hdir : env.readdir st.gapDir = .ok files)
    (hwf : ∀ f ∈ files, ∃ b, env.pathMatch st.gapFileGlob f.name = .ok b)
    (hm : ∃ f ∈ files, env.pathMatch st.gapFileGlob f.name = .ok true) :
    ∃ sel, sel ∈ files ∧ env.pathMatch st.gapFileGlob sel.name = .ok true ∧
      readGapFiles env st = .ok { st with fqnGapFile := env.pathJoin st.gapDir sel.name } ∧
      ∀ g ∈ files, env.pathMatch st.gapFileGlob g.name = .ok true →
        ¬ (sel.modTime < g.modTime) := by
  obtain ⟨f0, hf0, hf0m⟩ := hm
  have hmem : ∀ g, g ∈ files.filter (isMatch env st.gapFileGlob) ↔
      g ∈ files ∧ env.pathMatch st.gapFileGlob g.name = .ok true := by
    intro g; simp [List.mem_filter, isMatch]
  have hperm := env.sorter.perm (sortReverse byModificationTime.Less)
    (files.filter (isMatch env st.gapFileGlob))
  have hord := env.sorter.ordered (sortReverse byModificationTime.Less)
    (files.filter (isMatch env st.gapFileGlob))
    (by
      intro a b hab
      simp only [sortReverse, byModificationTime.Less, decide_eq_true_eq,
        decide_eq_false_iff_not] at hab ⊢
      omega)
    (by
      intro a b c hab hbc
      simp only [sortReverse, byModificationTime.Less, decide_eq_false_iff_not] at hab hbc ⊢
      omega)
  have hlen : (files.filter (isMatch env st.gapFileGlob)).length ≠ 0 := by
    intro h0
    have := (hmem f0).mpr ⟨hf0, hf0m⟩
    rw [List.length_eq_zero.mp h0] at this
    simp at this
  cases hs : env.sorter.sort (sortReverse byModificationTime.Less)
      (files.filter (isMatch env st.gapFileGlob)) with
  | nil =>
    rw [hs] at hperm
    exact absurd (by rw [← hperm.length_eq]; rfl) hlen
  | cons sel rest =>
    rw [hs] at hperm hord
    have hsel := (hmem sel).mp (hperm.subset (by simp))
    refine ⟨sel, hsel.1, hsel.2, ?_, ?_⟩
    · simp [readGapFiles, hdir, matchLoop_ok env _ files [] hwf, hlen, hs]
    · intro g hg hgm
      have hgs : g ∈ sel :: rest := hperm.symm.subset ((hmem g).mpr ⟨hg, hgm⟩)
      rcases List.mem_cons.mp hgs with h | h
      · rw [h]; exact lt_irrefl _
      · have := (List.pairwise_cons.mp hord).1 g h
        simpa [sortReverse, byModificationTime.Less] using this

/-- Function compress ends the run by panic only. -/
theorem compress_error (env : Env) (st : State) (stop : Stop)
    (h : (compress env st).1 = .error stop) : ∃ msg, stop = .panic msg := by
  unfold compress at h
  split at h
  · simp only [Except.error.injEq] at h; exact ⟨_, h.symm⟩
  · simp only at h
    split at h
    · simp only [Except.error.injEq] at h; exact ⟨_, h.symm⟩
    · split at h
      · simp only [Except.error.injEq] at h; exact ⟨_, h.symm⟩
      · simp at h

/-- Function getRecentGapMessages ends the run by panic only. -/
theorem getRecentGapMessages_error (file : Except String (List Char)) (stop : Stop)
    (h : getRecentGapMessages file = .error stop) : ∃ msg, stop = .panic msg := by
  unfold getRecentGapMessages at h
  split at h
  · simp only [Except.error.injEq] at h; exact ⟨_, h.symm⟩
  · simp at h

/-- Function createMailArgs ends the run by panic only. -/
theorem createMailArgs_error (st : State) (stop : Stop)
    (h : createMailArgs st = .error stop) : ∃ msg, stop = .panic msg := by
  unfold createMailArgs at h
  simp only at h
  split at h
  · simp at h
  · split at h
    · simp only [Except.error.injEq] at h; exact ⟨_, h.symm⟩
    · simp at h

/-- Function sendMailWithAttachment exits with a code only after invoking the transport, and the code is the one of the transport. -/
theorem sendMail_exit (env : Env) (lastLines mailArgs : List String) (code : Int)
    (h : (sendMailWithAttachment env lastLines mailArgs).1 = .error (.exit code)) :
    ∃ stdin, (sendMailWithAttachment env lastLines mailArgs).2 =
        [Event.transport mailxCmd mailArgs stdin] ∧
      env.runCmd mailxCmd mailArgs stdin = .exitError code := by
  unfold sendMailWithAttachment at h ⊢
  split at h
  · simp at h
  · rename_i stdin hstdin
    simp only at h ⊢
    refine ⟨stdin, ?_, ?_⟩
    · split <;> rfl
    · split at h
      · simp at h
      · rename_i c hc
        simp only [Except.error.injEq, Stop.exit.injEq] at h
        rw [hc, h]
      · simp at h

/-- Exit status 1 comes from os.Exit with a code whose low byte is 1. -/
theorem exitStatus_one (r : Except Stop Unit) (h : exitStatus r = 1) :
    ∃ code, r = .error (.exit code) ∧ code % 256 = 1 := by
  match r, h with
  | .ok _, h => simp [exitStatus] at h
  | .error (.exit code), h => exact ⟨code, rfl, by simpa [exitStatus] using h⟩
  | .error (.panic _), h => simp [exitStatus] at h

/-- Once readGapFiles has returned, exit status 1 comes from the transport. -/
theorem main_after_locate (env : Env) (fl : Flags) (st st1 : State)
    (hargs : parseArgs fl env.osHostname = .ok st) (hread : readGapFiles env st = .ok st1)
    (hexit : exitStatus (main env fl).1 = 1) :
    ∃ args stdin code, Event.transport mailxCmd args stdin ∈ (main env fl).2 ∧
      env.runCmd mailxCmd args stdin = .exitError code ∧ code % 256 = 1 := by
  obtain ⟨code, hcode, hmod⟩ := exitStatus_one _ hexit
  unfold main at hcode ⊢
  simp only [hargs, hread] at hcode ⊢
  split at hcode
  · rename_i stop events hcomp
    obtain ⟨msg, hmsg⟩ := compress_error env st1 stop (by rw [hcomp])
    rw [hmsg] at hcode
    simp at hcode
  · rename_i tmpfile st2 events hcomp
    split at hcode
    · rename_i stop hget
      obtain ⟨msg, hmsg⟩ := getRecentGapMessages_error _ stop hget
      rw [hmsg] at hcode
      simp at hcode
    · rename_i lastLines hget
      split at hcode
      · rename_i stop hargs2
        obtain ⟨msg, hmsg⟩ := createMailArgs_error _ stop hargs2
        rw [hmsg] at hcode
        simp at hcode
      · rename_i mailArgs st4 hargs2
        simp only at hcode ⊢
        obtain ⟨stdin, hev, hrun⟩ := sendMail_exit env lastLines mailArgs code hcode
        exact ⟨mailArgs, stdin, code, by rw [hev]; simp, hrun, hmod⟩

/-- C4: readGapFiles selects the most recently modified matching entry.  For a
readable listing whose names the glob matches without error, at least one of
them matching, the path assigned to fqnGapFile is gapDir joined with the name
of a matching entry of the listing, and no matching entry has a modification
time after the one of that entry. -/
theorem readGapFiles_selects_latest (env : Env) (st : State) (files : List FileInfo)
    (hdir : env.readdir st.gapDir = .ok files)
    (hwf : ∀ f ∈ files, ∃ b, env.pathMatch st.gapFileGlob f.name = .ok b)
    (hm : ∃ f ∈ files, env.pathMatch st.gapFileGlob f.name = .ok true) :
    ∃ sel, sel ∈ files ∧ env.pathMatch st.gapFileGlob sel.name = .ok true ∧
      readGapFiles env st = .ok { st with fqnGapFile := env.pathJoin st.gapDir sel.name } ∧
      ∀ g ∈ files, env.pathMatch st.gapFileGlob g.name = .ok true →
        ¬ (sel.modTime < g.modTime) :=
  readGapFiles_some env st files hdir hwf hm

/-- Witness for C4: in the scenario directory the newer host_b.gap is selected. -/
theorem readGapFiles_selects_latest_witness :
    (∃ sel, sel ∈ scenarioFiles ∧
      (scenarioEnv scenarioFiles .ok).pathMatch scenarioState.gapFileGlob sel.name = .ok true ∧
      readGapFiles (scenarioEnv scenarioFiles .ok) scenarioState =
        .ok { scenarioState with
          fqnGapFile := (scenarioEnv scenarioFiles .ok).pathJoin scenarioState.gapDir sel.name } ∧
      ∀ g ∈ scenarioFiles,
        (scenarioEnv scenarioFiles .ok).pathMatch scenarioState.gapFileGlob g.name = .ok true →
        ¬ (sel.modTime < g.modTime)) ∧
    readGapFiles (scenarioEnv scenarioFiles .ok) scenarioState =
      .ok { scenarioState with fqnGapFile := "/usr/local/ldm/logs/host_b.gap" } :=
  ⟨readGapFiles_selects_latest (scenarioEnv scenarioFiles .ok) scenarioState scenarioFiles rfl
      (fun _ _ => ⟨_, rfl⟩) ⟨FileInfo.mk "host_b.gap" 200, by decide, by decide⟩,
   by decide⟩

/-- C5, counterexample: in the scenario directory host_a.gap and host_b.gap
match the glob host_*.gap, the temporary file is created, and a transport
that exits with status 1 makes the run end with exit status 1. -/
theorem main_exit_one_with_match :
    (parseArgs noFlags (scenarioEnv scenarioFiles (.exitError 1)).osHostname).map
        (fun st => st.gapFileGlob) = .ok "host_*.gap" ∧
    (∃ f ∈ scenarioFiles,
      (scenarioEnv scenarioFiles (.exitError 1)).pathMatch "host_*.gap" f.name = .ok true) ∧
    exitStatus (main (scenarioEnv scenarioFiles (.exitError 1)) noFlags).1 = 1 ∧
    Event.tempCreated "/tmp/gap123" ∈
      (main (scenarioEnv scenarioFiles (.exitError 1)) noFlags).2 := by
  decide

/-- C5, amended: after the configuration is resolved, over a readable listing
and a glob that matches every listed name without error: if no listed name
matches, readGapFiles ends the run with exit status 1 and nothing else has
happened (no temporary file, no transport invocation); if some listed name
matches, readGapFiles returns, and the run ends with exit status 1 only when
the transport was invoked and itself ended with exit status 1. -/
theorem main_exit_status_one (env : Env) (fl : Flags) (st : State) (files : List FileInfo)
    (hargs : parseArgs fl env.osHostname = .ok st)
    (hdir : env.readdir st.gapDir = .ok files)
    (hwf : ∀ f ∈ files, ∃ b, env.pathMatch st.gapFileGlob f.name = .ok b) :
    ((∀ f ∈ files, env.pathMatch st.gapFileGlob f.name ≠ .ok true) →
      readGapFiles env st = .error (.exit 1) ∧ main env fl = (.error (.exit 1), []) ∧
      exitStatus (main env fl).1 = 1) ∧
    ((∃ f ∈ files, env.pathMatch st.gapFileGlob f.name = .ok true) →
      (∃ st1, readGapFiles env st = .ok st1) ∧
      (exitStatus (main env fl).1 = 1 →
        ∃ args stdin code, Event.transport mailxCmd args stdin ∈ (main env fl).2 ∧
          env.runCmd mailxCmd args stdin = .exitError code ∧ code % 256 = 1)) := by
  constructor
  · intro hno
    have hread := readGapFiles_none env st files hdir hwf hno
    have hmain : main env fl = (.error (.exit 1), []) := by
      simp only [main, hargs, hread]
    refine ⟨hread, hmain, ?_⟩
    rw [hmain]
    rfl
  · intro hm
    obtain ⟨sel, _, _, hread, _⟩ := readGapFiles_some env st files hdir hwf hm
    exact ⟨⟨_, hread⟩, fun hexit => main_after_locate env fl st _ hargs hread hexit⟩

/-- Witness for C5: an empty directory ends the run in readGapFiles with
status 1 and no event; in the scenario directory a status 1 comes from the
transport. -/
theorem main_exit_status_one_witness :
    main (scenarioEnv [] .ok) noFlags = (.error (.exit 1), []) ∧
    (∃ args stdin code,
      Event.transport mailxCmd args stdin ∈
        (main (scenarioEnv scenarioFiles (.exitError 1)) noFlags).2 ∧
      (scenarioEnv scenarioFiles (.exitError 1)).runCmd mailxCmd args stdin = .exitError code ∧
      code % 256 = 1) :=
  ⟨((main_exit_status_one (scenarioEnv [] .ok) noFlags scenarioState [] (by decide) rfl
      (fun _ _ => ⟨_, rfl⟩)).1 (by simp)).2.1,
   ((main_exit_status_one (scenarioEnv scenarioFiles (.exitError 1)) noFlags scenarioState
      scenarioFiles (by decide) rfl (fun _ _ => ⟨_, rfl⟩)).2
      ⟨FileInfo.mk "host_b.gap" 200, by decide, by decide⟩).2 (by decide)⟩

/-! ## getRecentGapMessages: the read loop -/

theorem isLine_iff (l : String) : IsLine l ↔ ∃ b : List Char, '\n' ∉ b ∧ l.data = b ++ ['\n'] := by
  constructor
  · rintro ⟨h1, h2⟩
    refine ⟨l.data.dropLast, h2, ?_⟩
    have hne : l.data ≠ [] := by
      intro h; rw [h] at h1; simp at h1
    have := List.dropLast_append_getLast hne
    rw [List.getLast?_eq_getLast _ hne] at h1
    simp only [Option.some.injEq] at h1
    rw [h1] at this
    exact this.symm
  · rintro ⟨b, hb, hl⟩
    constructor
    · rw [hl]; simp
    · rw [hl]; simpa using hb

/-- ReadString on a reader that begins with a line returns the line and leaves the rest. -/
theorem readString_line (b rest : List Char) (hb : '\n' ∉ b) :
    readString '\n' (b ++ '\n' :: rest) = { line := String.mk (b ++ ['\n']), err := none, rest := rest } := by
  induction b with
  | nil => simp [readString]
  | cons x b ih =>
    have hx : x ≠ '\n' := fun h => hb (by simp [h])
    have hb2 : '\n' ∉ b := fun h => hb (by simp [h])
    simp [readString, hx, ih hb2]

/-- ReadString on a reader without a newline reports the end of the input. -/
theorem readString_eof (t : List Char) (ht : '\n' ∉ t) :
    (readString '\n' t).err = some "EOF" := by
  induction t with
  | nil => simp [readString]
  | cons x t ih =>
    have hx : x ≠ '\n' := fun h => ht (by simp [h])
    have ht2 : '\n' ∉ t := fun h => ht (by simp [h])
    simp [readString, hx, ih ht2]

/-- One round of the loop on a reader that begins with a line stores the line. -/
theorem readLoop_line (fuel : Nat) (l : String) (rest : List Char) (buf : List String)
    (hl : IsLine l) :
    readLoop (fuel + 1) (l.data ++ rest) buf = readLoop fuel rest (rotate buf l) := by
  obtain ⟨b, hb, hd⟩ := (isLine_iff l).mp hl
  have hl2 : l = String.mk (b ++ ['\n']) := by
    cases l; simp at hd; simp [hd]
  rw [hd]
  simp only [List.append_assoc, List.singleton_append]
  simp [readLoop, readString_line b rest hb, hl2]

/-- The loop stops on a reader without a newline and leaves the buffer as it is. -/
theorem readLoop_eof (fuel : Nat) (t : List Char) (buf : List String) (ht : '\n' ∉ t) :
    readLoop fuel t buf = buf := by
  cases fuel with
  | zero => rfl
  | succ n => simp [readLoop, readString_eof t ht]

/-- With fuel above the number of bytes, the loop stores the lines one after the other and drops the unterminated rest. -/
theorem readLoop_lines (ls : List String) (t : List Char) (hls : ∀ l ∈ ls, IsLine l)
    (ht : '\n' ∉ t) (fuel : Nat) (buf : List String)
    (hf : (concatLines ls ++ t).length < fuel) :
    readLoop fuel (concatLines ls ++ t) buf = ls.foldl rotate buf := by
  induction ls generalizing fuel buf with
  | nil => simpa [concatLines] using readLoop_eof fuel t buf ht
  | cons l ls ih =>
    cases fuel with
    | zero => simp at hf
    | succ n =>
      have hl : IsLine l := hls l (by simp)
      simp only [concatLines, List.append_assoc, List.foldl_cons]
      rw [readLoop_line n l _ buf hl]
      apply ih (fun x hx => hls x (by simp [hx]))
      obtain ⟨b, _, hd⟩ := (isLine_iff l).mp hl
      have hpos : 0 < l.data.length := by rw [hd]; simp
      simp only [concatLines, List.append_assoc, List.length_append] at hf ⊢
      omega

/-- The buffer returned for a file of lines followed by an unterminated rest. -/
theorem getRecentGapMessages_lines (ls : List String) (t : List Char)
    (hls : ∀ l ∈ ls, IsLine l) (ht : '\n' ∉ t) :
    getRecentGapMessages (.ok (concatLines ls ++ t)) = .ok (ls.foldl rotate ["", "", ""]) := by
  simp only [getRecentGapMessages]
  rw [readLoop_lines ls t hls ht _ _ (Nat.lt_succ_self _)]
  rfl

/-- The assignment of line 193 on a buffer of three slots. -/
theorem rotate_three (a b c l : String) : rotate [a, b, c] l = [c, b, l] := by
  simp [rotate]

/-- The buffer keeps three slots. -/
theorem foldl_rotate_shape (ls : List String) (a b c : String) :
    ∃ x y z, ls.foldl rotate [a, b, c] = [x, y, z] := by
  induction ls generalizing a b c with
  | nil => exact ⟨a, b, c, rfl⟩
  | cons l ls ih => simpa [rotate_three] using ih c b l

/-- Every content is a sequence of lines followed by a newline-free rest, and cutting it after its last newline leaves the lines. -/
theorem decompose (c : List Char) :
    ∃ ls t, (∀ l ∈ ls, IsLine l) ∧ '\n' ∉ t ∧ c = concatLines ls ++ t ∧
      upToLastNewline c = concatLines ls := by
  induction c with
  | nil => exact ⟨[], [], by simp, by simp, rfl, rfl⟩
  | cons x c ih =>
    obtain ⟨ls, t, hls, ht, hc, hu⟩ := ih
    by_cases hx : x = '\n'
    · refine ⟨String.mk [x] :: ls, t, ?_, ht, ?_, ?_⟩
      · intro l hl
        rcases List.mem_cons.mp hl with h | h
        · rw [h, hx]; decide
        · exact hls l h
      · simp [concatLines, hc]
      · simp [upToLastNewline, hx, hu, concatLines]
    · cases ls with
      | nil =>
        refine ⟨[], x :: t, by simp, ?_, ?_, ?_⟩
        · simp only [List.mem_cons, not_or]
          exact ⟨fun h => hx h.symm, ht⟩
        · simp [concatLines] at hc ⊢; exact hc
        · have : '\n' ∉ x :: c := by
            simp only [concatLines, List.nil_append] at hc
            rw [hc]
            simp only [List.mem_cons, not_or]
            exact ⟨fun h => hx h.symm, ht⟩
          simp only [upToLastNewline, if_neg this, concatLines]
      | cons l ls =>
        obtain ⟨b, hb, hd⟩ := (isLine_iff l).mp (hls l (by simp))
        refine ⟨String.mk (x :: l.data) :: ls, t, ?_, ht, ?_, ?_⟩
        · intro l2 hl2
          rcases List.mem_cons.mp hl2 with h | h
          · rw [h]
            exact (isLine_iff _).mpr ⟨x :: b, by
              simp only [List.mem_cons, not_or]
              exact ⟨fun h => hx h.symm, hb⟩, by simp [hd]⟩
          · exact hls l2 (by simp [h])
        · simp [concatLines, hc]
        · have : '\n' ∈ x :: c := by
            rw [hc]; simp [concatLines, hd]
          simp only [upToLastNewline, if_pos this, hu, concatLines, List.cons_append]

/-- The bytes of two sequences of lines, one after the other. -/
theorem concatLines_append (xs ys : List String) :
    concatLines (xs ++ ys) = concatLines xs ++ concatLines ys := by
  induction xs with
  | nil => rfl
  | cons x xs ih => simp [concatLines, ih]

/-- A file made of lines is empty or ends with a newline. -/
theorem concatLines_end (ls : List String) (hls : ∀ l ∈ ls, IsLine l) :
    concatLines ls = [] ∨ (concatLines ls).getLast? = some '\n' := by
  induction ls with
  | nil => exact Or.inl rfl
  | cons l ls ih =>
    right
    obtain ⟨b, _, hd⟩ := (isLine_iff l).mp (hls l (by simp))
    rcases ih (fun x hx => hls x (by simp [hx])) with h | h
    · simp [concatLines, h, hd]
    · have hne : concatLines ls ≠ [] := by
        intro h0; rw [h0] at h; simp at h
      simp only [concatLines]
      rw [List.getLast?_append_of_ne_nil _ hne]
      exact h

/-- The buffer returned for a file made of lines. -/
theorem getRecentGapMessages_whole (ls : List String) (hls : ∀ l ∈ ls, IsLine l) :
    getRecentGapMessages (.ok (concatLines ls)) = .ok (ls.foldl rotate ["", "", ""]) := by
  have h := getRecentGapMessages_lines ls [] hls (by simp)
  simpa using h

/-- A line is not the empty string. -/
theorem isLine_ne_empty (l : String) (hl : IsLine l) : l ≠ "" := by
  obtain ⟨b, _, hd⟩ := (isLine_iff l).mp hl
  intro h
  rw [h] at hd
  simp at hd

/-- Slot 1 is never written: it keeps the value it starts with. -/
theorem foldl_rotate_middle (ls : List String) (a b c : String) :
    ∃ x z, ls.foldl rotate [a, b, c] = [x, b, z] := by
  induction ls generalizing a c with
  | nil => exact ⟨a, c, rfl⟩
  | cons l ls ih => simpa [rotate_three] using ih c l

/-- What the loop retains of a counter file of two or more lines: the line
before the last in slot 0, nothing in slot 1, the last line in slot 2. -/
theorem getRecentGapMessages_retains_two (ls : List String) (a b : String)
    (hls : ∀ l ∈ ls, IsLine l) (ha : IsLine a) (hb : IsLine b) :
    getRecentGapMessages (.ok (concatLines (ls ++ [a, b]))) = .ok [a, "", b] := by
  have hall : ∀ m ∈ ls ++ [a, b], IsLine m := by
    intro m hm
    rcases List.mem_append.mp hm with h | h
    · exact hls m h
    · rcases List.mem_cons.mp h with h1 | h1
      · rw [h1]; exact ha
      · rw [List.mem_singleton.mp h1]; exact hb
  obtain ⟨x, z, hxz⟩ := foldl_rotate_middle ls "" "" ""
  rw [getRecentGapMessages_whole _ hall, List.foldl_append, hxz]
  simp [rotate_three]

/-- C2, evaluation at the failing input: for a counter file of the five lines
L1 to L5 the buffer returned by getRecentGapMessages is L4, the empty string,
L5, and not L3, L4, L5: slot 1 is never written by the assignment of line 193. -/
theorem getRecentGapMessages_five_lines :
    getRecentGapMessages (.ok "L1\nL2\nL3\nL4\nL5\n".data) = .ok ["L4\n", "", "L5\n"] ∧
    getRecentGapMessages (.ok "L1\nL2\nL3\nL4\nL5\n".data) ≠ .ok ["L3\n", "L4\n", "L5\n"] := by
  decide

/-- C3, counterexample: for a counter file of four lines the payload
lastLines[0] + lastLines[1] is line 3 alone, not line 3 followed by line 4. -/
theorem payload_four_lines :
    (getRecentGapMessages (.ok "c1\nc2\nc3\nc4\n".data)).map stdinPayload = .ok (some "c3\n") ∧
    (getRecentGapMessages (.ok "c1\nc2\nc3\nc4\n".data)).map stdinPayload
      ≠ .ok (some ("c3\n" ++ "c4\n")) := by
  decide

/-- C3, amended: the payload is the concatenation of slots 0 and 1 of the
buffer returned by getRecentGapMessages, and the most recent counter line is
held in slot 2, which is not part of it: for a counter file of one or more
newline-terminated lines, slot 2 is the last line, slots 0 and 1 do not
depend on it, and replacing the last line by any other line leaves the
payload unchanged. -/
theorem payload_excludes_latest_line (ls : List String) (l l2 : String)
    (hls : ∀ x ∈ ls, IsLine x) (hl : IsLine l) (hl2 : IsLine l2) :
    ∃ b0 b1,
      getRecentGapMessages (.ok (concatLines (ls ++ [l]))) = .ok [b0, b1, l] ∧
      getRecentGapMessages (.ok (concatLines (ls ++ [l2]))) = .ok [b0, b1, l2] ∧
      stdinPayload [b0, b1, l] = some (b0 ++ b1) ∧
      stdinPayload [b0, b1, l2] = some (b0 ++ b1) := by
  obtain ⟨x, y, z, hxyz⟩ := foldl_rotate_shape ls "" "" ""
  have h1 : ∀ m ∈ ls ++ [l], IsLine m := by
    intro m hm
    rcases List.mem_append.mp hm with h | h
    · exact hls m h
    · rw [List.mem_singleton.mp h]; exact hl
  have h2 : ∀ m ∈ ls ++ [l2], IsLine m := by
    intro m hm
    rcases List.mem_append.mp hm with h | h
    · exact hls m h
    · rw [List.mem_singleton.mp h]; exact hl2
  refine ⟨z, y, ?_, ?_, rfl, rfl⟩
  · rw [getRecentGapMessages_whole _ h1, List.foldl_append, hxyz]
    simp [rotate_three]
  · rw [getRecentGapMessages_whole _ h2, List.foldl_append, hxyz]
    simp [rotate_three]

/-- Witness for C3: a four-line counter file, and the same file with another
last line. -/
theorem payload_excludes_latest_line_witness :
    ∃ b0 b1,
      getRecentGapMessages (.ok (concatLines (["c1\n", "c2\n", "c3\n"] ++ ["c4\n"]))) =
        .ok [b0, b1, "c4\n"] ∧
      getRecentGapMessages (.ok (concatLines (["c1\n", "c2\n", "c3\n"] ++ ["other\n"]))) =
        .ok [b0, b1, "other\n"] ∧
      stdinPayload [b0, b1, "c4\n"] = some (b0 ++ b1) ∧
      stdinPayload [b0, b1, "other\n"] = some (b0 ++ b1) :=
  payload_excludes_latest_line ["c1\n", "c2\n", "c3\n"] "c4\n" "other\n"
    (by decide) (by decide) (by decide)

/-- C9: a counter file with fewer than 3 lines leaves the unused slots empty.
For k newline-terminated lines, k at most 2, the returned buffer has exactly
3 slots, exactly 3 - k of them are the empty string, and the non-empty slots
read in index order are the k lines in file order; the reads of slots 0 and
1 by the dispatcher are in bounds, and they are for every counter file. -/
theorem getRecentGapMessages_short_file (ls : List String) (hls : ∀ l ∈ ls, IsLine l)
    (hk : ls.length ≤ 2) :
    (∃ buf, getRecentGapMessages (.ok (concatLines ls)) = .ok buf ∧
      buf.length = 3 ∧ buf.count "" = 3 - ls.length ∧
      buf.filter (fun s => decide (s ≠ "")) = ls ∧
      stdinPayload buf = some (buf.getD 0 "" ++ buf.getD 1 "")) ∧
    (∀ c : List Char, ∃ buf, getRecentGapMessages (.ok c) = .ok buf ∧
      buf.length = 3 ∧ stdinPayload buf ≠ none) := by
  constructor
  · rw [getRecentGapMessages_whole ls hls]
    match ls, hls, hk with
    | [], _, _ => exact ⟨_, rfl, by decide, by decide, by decide, by decide⟩
    | [a], hls, _ =>
      have ha : a ≠ "" := isLine_ne_empty a (hls a (by simp))
      refine ⟨_, rfl, ?_, ?_, ?_, ?_⟩
      · simp [rotate]
      · simp [rotate, List.count_cons, Ne.symm ha]
      · simp [rotate, List.filter, ha]
      · simp [rotate, stdinPayload]
    | [a, b], hls, _ =>
      have ha : a ≠ "" := isLine_ne_empty a (hls a (by simp))
      have hb : b ≠ "" := isLine_ne_empty b (hls b (by simp))
      refine ⟨_, rfl, ?_, ?_, ?_, ?_⟩
      · simp [rotate]
      · simp [rotate, List.count_cons, Ne.symm ha, Ne.symm hb]
      · simp [rotate, List.filter, ha, hb]
      · simp [rotate, stdinPayload]
    | _ :: _ :: _ :: _, _, hk => simp at hk
  · intro c
    obtain ⟨ls2, t, hls2, ht, hc, _⟩ := decompose c
    obtain ⟨x, y, z, hxyz⟩ := foldl_rotate_shape ls2 "" "" ""
    refine ⟨[x, y, z], ?_, rfl, by simp [stdinPayload]⟩
    rw [hc, getRecentGapMessages_lines ls2 t hls2 ht, hxyz]

/-- Witness for C9: a counter file of two lines. -/
theorem getRecentGapMessages_short_file_witness :
    (∃ buf, getRecentGapMessages (.ok (concatLines ["c1\n", "c2\n"])) = .ok buf ∧
      buf.length = 3 ∧ buf.count "" = 3 - ["c1\n", "c2\n"].length ∧
      buf.filter (fun s => decide (s ≠ "")) = ["c1\n", "c2\n"] ∧
      stdinPayload buf = some (buf.getD 0 "" ++ buf.getD 1 "")) ∧
    (∀ c : List Char, ∃ buf, getRecentGapMessages (.ok c) = .ok buf ∧
      buf.length = 3 ∧ stdinPayload buf ≠ none) :=
  getRecentGapMessages_short_file ["c1\n", "c2\n"] (by decide) (by decide)

/-- C10: getRecentGapMessages only retains newline-terminated lines.  For every
counter-file content, the returned buffer, and with it the payload, is the
one returned for the content cut after its last newline; what is cut off is
the text after the last newline, and the cut content is empty or ends with a
newline. -/
theorem getRecentGapMessages_drops_unterminated (c : List Char) :
    getRecentGapMessages (.ok c) = getRecentGapMessages (.ok (upToLastNewline c)) ∧
    (getRecentGapMessages (.ok c)).map stdinPayload =
      (getRecentGapMessages (.ok (upToLastNewline c))).map stdinPayload ∧
    (∃ t, c = upToLastNewline c ++ t ∧ '\n' ∉ t) ∧
    (upToLastNewline c = [] ∨ (upToLastNewline c).getLast? = some '\n') := by
  obtain ⟨ls, t, hls, ht, hc, hu⟩ := decompose c
  have h : getRecentGapMessages (.ok c) = getRecentGapMessages (.ok (upToLastNewline c)) := by
    rw [hu, getRecentGapMessages_whole ls hls, hc, getRecentGapMessages_lines ls t hls ht]
  refine ⟨h, by rw [h], ⟨t, ?_, ht⟩, ?_⟩
  · rw [hu]; exact hc
  · rw [hu]; exact concatLines_end ls hls


/-! ## createMailArgs: the dispatch decision -/

/-- C1: createMailArgs builds exactly one of two argument lists, decided by the
compressed size against the fixed ceiling of 10485760 bytes.  At or below the
ceiling the list is the subject flag, the unchanged subject, the attachment
flag, the temporary path and the recipients; above it the list is the subject
flag, the subject with the fixed suffix, and the recipients.  In both cases
the first argument is the subject flag and the recipients are the last. -/
theorem createMailArgs_spec (st : State) (p : String)
    (hp : st.fqnCompressedFile = some (File.mk p)) :
    (st.compressedSize ≤ 10485760 →
      createMailArgs st = .ok (["-s", st.subjectLine, "-a", p, st.recipients], st)) ∧
    (st.compressedSize > 10485760 →
      createMailArgs st =
        .ok (["-s", st.subjectLine ++ " without gap file attachment", st.recipients],
          { st with subjectLine := st.subjectLine ++ " without gap file attachment" })) ∧
    (∃ args st1, createMailArgs st = .ok (args, st1) ∧
      args.head? = some "-s" ∧ args.getLast? = some st.recipients) := by
  have hc : maxCompressedSize = 10485760 := by decide
  by_cases h : st.compressedSize > 10485760
  · have h1 : createMailArgs st =
        .ok (["-s", st.subjectLine ++ " without gap file attachment", st.recipients],
          { st with subjectLine := st.subjectLine ++ " without gap file attachment" }) := by
      simp [createMailArgs, hc, h]
    refine ⟨fun hle => absurd h (not_lt.mpr hle), fun _ => h1, _, _, h1, rfl, rfl⟩
  · have h1 : createMailArgs st =
        .ok (["-s", st.subjectLine, "-a", p, st.recipients], st) := by
      simp [createMailArgs, hc, h, hp]
    exact ⟨fun _ => h1, fun hgt => absurd hgt h, _, _, h1, rfl, rfl⟩

/-- Witness for C1: a 50 byte artifact is attached, one byte over the ceiling is not. -/
theorem createMailArgs_spec_witness :
    createMailArgs (sampleState 50 10485760) =
        .ok (["-s", "Gap-in-sequence messages from host", "-a", "/tmp/gap123", "ops@example.org"],
          sampleState 50 10485760) ∧
    createMailArgs (sampleState 10485761 10485760) =
        .ok (["-s", "Gap-in-sequence messages from host" ++ " without gap file attachment",
              "ops@example.org"],
          { sampleState 10485761 10485760 with
            subjectLine := "Gap-in-sequence messages from host" ++ " without gap file attachment" }) :=
  ⟨(createMailArgs_spec (sampleState 50 10485760) "/tmp/gap123" rfl).1 (by decide),
   (createMailArgs_spec (sampleState 10485761 10485760) "/tmp/gap123" rfl).2.1 (by decide)⟩

/-- C7: the dispatch decision does not depend on the operator-configured
ceiling.  Two states that agree on subject, recipients, temporary file and
compressed size give the same argument list and the same subject afterwards,
whatever their maxTransferSize; so a compressed size above maxTransferSize
and at most 10485760 is still attached. -/
theorem createMailArgs_ignores_maxTransferSize (st1 st2 : State)
    (hs : st1.subjectLine = st2.subjectLine) (hr : st1.recipients = st2.recipients)
    (hf : st1.fqnCompressedFile = st2.fqnCompressedFile)
    (hn : st1.compressedSize = st2.compressedSize) :
    (createMailArgs st1).map (fun r => (r.1, r.2.subjectLine)) =
      (createMailArgs st2).map (fun r => (r.1, r.2.subjectLine)) ∧
    (∀ p, st1.fqnCompressedFile = some (File.mk p) →
      st1.maxTransferSize < st1.compressedSize → st1.compressedSize ≤ 10485760 →
      (createMailArgs st1).map (fun r => r.1) =
        .ok ["-s", st1.subjectLine, "-a", p, st1.recipients]) := by
  have hc : maxCompressedSize = 10485760 := by decide
  constructor
  · unfold createMailArgs
    rw [hs, hr, hf, hn]
    by_cases h : st2.compressedSize > maxCompressedSize
    · simp [h, Except.map, hs]
    · cases hfile : st2.fqnCompressedFile <;> simp [h, Except.map, hs]
  · intro p hp _ hle
    have h : ¬ st1.compressedSize > 10485760 := not_lt.mpr hle
    simp [createMailArgs, hc, h, hp, Except.map]

/-- Witness for C7: with the ceiling lowered to 100 bytes, a 5000 byte
artifact gets the same arguments as with the default ceiling, attachment
included. -/
theorem createMailArgs_ignores_maxTransferSize_witness :
    (createMailArgs (sampleState 5000 100)).map (fun r => (r.1, r.2.subjectLine)) =
      (createMailArgs (sampleState 5000 10485760)).map (fun r => (r.1, r.2.subjectLine)) ∧
    (createMailArgs (sampleState 5000 100)).map (fun r => r.1) =
      .ok ["-s", "Gap-in-sequence messages from host", "-a", "/tmp/gap123", "ops@example.org"] :=
  ⟨(createMailArgs_ignores_maxTransferSize (sampleState 5000 100) (sampleState 5000 10485760)
      rfl rfl rfl rfl).1,
   (createMailArgs_ignores_maxTransferSize (sampleState 5000 100) (sampleState 5000 10485760)
      rfl rfl rfl rfl).2 "/tmp/gap123" rfl (by decide) (by decide)⟩

end GapFeeder
